import Mathlib

/-!
# sanctuary-argv: shallow embedding of `src/index.js`

`parseArgs` (src/index.js, lines 335–365) scans an argument list left to
right, threading a configuration value through flag/option handlers, and
returns either an error message or the final configuration paired with the
positional arguments.  `names` (lines 371–375) expands one raw token into
the list of flag/option names it denotes.

The JS handler type is `Either (Setter a) (Validator a)` where
`Setter a = a -> a` and `Validator a = String -> Either String (Setter a)`;
`Flag` is `Left`, `Option` is `Right`.  We embed it as an inductive with
two constructors.  The JS `StrMap` specification (looked up with
`propertyIsEnumerable`) is embedded as a partial map `String → Option _`.
-/

namespace SanctuaryArgv

universe u

/-- JS: `Handler a = Either (Setter a) (Validator a)`; `Flag` wraps a
setter `a -> a`, `Option` wraps a validator
`String -> Either String (a -> a)` (`Left` = error message). -/
inductive Handler (α : Type u) : Type u where
  | Flag (f : α → α)
  | Option (g : String → Except String (α → α))

/-- A specification: the `StrMap (Handler a)` of the JS source, as a
partial map from name to handler (`none` = key absent). -/
def Spec (α : Type u) : Type u :=
  String → Option (Handler α)

/-- JS: `arg.startsWith ('-')` — the string's first character is `'-'`. -/
def startsDash (s : String) : Bool :=
  match s.data with
  | c :: _ => c = '-'
  | _ => false

/-- JS: `arg.startsWith ('--')` — the string's first two characters are
`'-'`. -/
def startsDashDash (s : String) : Bool :=
  match s.data with
  | c :: d :: _ => c = '-' && d = '-'
  | _ => false

/-- JS line 374: `arg` has a hyphen interleaved before every character and
after the last one (`arg.replace` with the empty-match regex and `'-'`),
and the result is globally matched against the regex "hyphen followed by a
non-hyphen" to collect two-character names.  Since every character of
`arg` ends up preceded by an inserted hyphen, the left-to-right global
match picks out exactly one two-character name `-c` per non-hyphen
character `c` of `arg`, in order. -/
def expandShort (arg : String) : List String :=
  (arg.data.filter (fun c => c ≠ '-')).map (fun c => String.mk ['-', c])

/-- JS: `names` (lines 371–375): a token starting with `--` is a single
long name; any other token yields its non-hyphen characters as short
names. -/
def names (arg : String) : List String :=
  if startsDashDash arg then [arg] else expandShort arg

/-- The two nested loops of `parseArgs` (lines 342–364) as one state
machine.  `pending` is the remainder of the inner `for (const name of
names (args[idx]))` iterator: when it is empty the outer loop classifies
the next argument token; otherwise the head name is dispatched, Options
consuming their value from the front of `args` exactly as the JS
`idx += 1` does. -/
def scan {α : Type u} (spec : Spec α) :
    α → List String → List String → Except String (α × List String)
  | conf, [], [] => Except.ok (conf, [])
  | conf, [], arg :: rest =>
    if arg = "-" then
      Except.error "- is not a valid flag or option name"
    else if arg = "--" then
      Except.ok (conf, rest)
    else if startsDash arg = false then
      Except.ok (conf, arg :: rest)
    else
      scan spec conf (names arg) rest
  | conf, n :: ns, rest =>
    match spec n with
    | none => Except.error (n ++ " is unrecognized")
    | some (Handler.Flag f) => scan spec (f conf) ns rest
    | some (Handler.Option g) =>
      match rest with
      | [] => Except.error (n ++ " requires a value")
      | v :: rest2 =>
        match g v with
        | Except.error e => Except.error e
        | Except.ok f => scan spec (f conf) ns rest2
termination_by _ pending args => (args.length, pending.length)

/-- JS: `parseArgs` (lines 335–365).  Takes the specification and the
pair of initial configuration and argument list. -/
def parseArgs {α : Type u} (spec : Spec α) (p : α × List String) :
    Except String (α × List String) :=
  scan spec p.1 [] p.2

/-- The scan consumes the whole argument list as flag/option names and
option values: it ends by exhausting the list, rather than by an error, a
separator, or a positional token.  Same recursion structure as `scan`. -/
def consumesAll {α : Type u} (spec : Spec α) :
    α → List String → List String → Bool
  | _, [], [] => true
  | conf, [], arg :: rest =>
    if arg = "-" then false
    else if arg = "--" then false
    else if startsDash arg = false then false
    else consumesAll spec conf (names arg) rest
  | conf, n :: ns, rest =>
    match spec n with
    | none => false
    | some (Handler.Flag f) => consumesAll spec (f conf) ns rest
    | some (Handler.Option g) =>
      match rest with
      | [] => false
      | v :: rest2 =>
        match g v with
        | Except.error _ => false
        | Except.ok f => consumesAll spec (f conf) ns rest2
termination_by _ pending args => (args.length, pending.length)

/-! ## Concrete specifications used as test inputs

`specCE` models the repository's own test specification restricted to
`-c` (a flag) and `-e` (an option): the configuration counts flag
applications in `.1` and records the last option value's length in `.2`.
The validator accepts every string, recording its length. -/

def specCE : Spec (Nat × Nat) := fun n =>
  if n = "-c" then some (Handler.Flag (fun p => (p.1 + 1, p.2)))
  else if n = "-e" then
    some (Handler.Option (fun v => Except.ok (fun p => (p.1, v.length))))
  else none

/-- A specification whose validator rejects every value, with a fixed
message. -/
def specReject : Spec Nat := fun n =>
  if n = "-r" then some (Handler.Option (fun _ => Except.error "bad value"))
  else none

/-! ## Helper lemmas

One step lemma per branch of `scan`, mirroring lines 342–363 of the
source. -/

theorem scan_done {α : Type u} (spec : Spec α) (conf : α) :
    scan spec conf [] [] = Except.ok (conf, []) := by
  rw [scan]

theorem scan_lone_dash {α : Type u} (spec : Spec α) (conf : α)
    (rest : List String) :
    scan spec conf [] ("-" :: rest) =
      Except.error "- is not a valid flag or option name" := by
  rw [scan]
  simp

theorem scan_separator {α : Type u} (spec : Spec α) (conf : α)
    (rest : List String) :
    scan spec conf [] ("--" :: rest) = Except.ok (conf, rest) := by
  rw [scan]
  simp

theorem scan_positional {α : Type u} (spec : Spec α) (conf : α)
    (arg : String) (rest : List String) (h : startsDash arg = false) :
    scan spec conf [] (arg :: rest) = Except.ok (conf, arg :: rest) := by
  have h1 : arg ≠ "-" := by
    rintro rfl
    exact absurd h (by decide)
  have h2 : arg ≠ "--" := by
    rintro rfl
    exact absurd h (by decide)
  rw [scan]
  simp [h1, h2, h]

theorem scan_classify {α : Type u} (spec : Spec α) (conf : α)
    (arg : String) (rest : List String)
    (h1 : arg ≠ "-") (h2 : arg ≠ "--") (h3 : startsDash arg = true) :
    scan spec conf [] (arg :: rest) = scan spec conf (names arg) rest := by
  rw [scan]
  simp [h1, h2, h3]

theorem scan_unrecognized {α : Type u} (spec : Spec α) (conf : α)
    (n : String) (ns rest : List String) (h : spec n = none) :
    scan spec conf (n :: ns) rest =
      Except.error (n ++ " is unrecognized") := by
  rw [scan]
  simp [h]

theorem scan_flag {α : Type u} (spec : Spec α) (conf : α) (n : String)
    (ns rest : List String) (f : α → α)
    (h : spec n = some (Handler.Flag f)) :
    scan spec conf (n :: ns) rest = scan spec (f conf) ns rest := by
  rw [scan]
  simp [h]

theorem scan_option_no_value {α : Type u} (spec : Spec α) (conf : α)
    (n : String) (ns : List String) (g : String → Except String (α → α))
    (h : spec n = some (Handler.Option g)) :
    scan spec conf (n :: ns) [] =
      Except.error (n ++ " requires a value") := by
  rw [scan]
  simp [h]

theorem scan_option_invalid {α : Type u} (spec : Spec α) (conf : α)
    (n : String) (ns : List String) (g : String → Except String (α → α))
    (v : String) (rest : List String) (e : String)
    (h : spec n = some (Handler.Option g)) (hv : g v = Except.error e) :
    scan spec conf (n :: ns) (v :: rest) = Except.error e := by
  rw [scan]
  simp [h, hv]

theorem scan_option_valid {α : Type u} (spec : Spec α) (conf : α)
    (n : String) (ns : List String) (g : String → Except String (α → α))
    (v : String) (rest : List String) (f : α → α)
    (h : spec n = some (Handler.Option g)) (hv : g v = Except.ok f) :
    scan spec conf (n :: ns) (v :: rest) = scan spec (f conf) ns rest := by
  rw [scan]
  simp [h, hv]

/-- Whatever the pending names, a successful scan returns a contiguous
suffix of the remaining argument list as the positionals. -/
theorem scan_ok_suffix {α : Type u} (spec : Spec α)
    (conf : α) (pending args : List String) :
    ∀ conf2 pos, scan spec conf pending args = Except.ok (conf2, pos) →
      pos <:+ args := by
  induction conf, pending, args using scan.induct spec with
  | case1 conf =>
    intro conf2 pos h
    simp [scan] at h
    simp [h.2.symm]
  | case2 conf rest =>
    intro conf2 pos h
    simp [scan] at h
  | case3 conf rest h1 =>
    intro conf2 pos h
    simp [scan] at h
    exact h.2 ▸ List.suffix_cons "--" rest
  | case4 conf arg rest h1 h2 h3 =>
    intro conf2 pos h
    simp [scan, h1, h2, h3] at h
    exact h.2 ▸ List.suffix_rfl
  | case5 conf arg rest h1 h2 h3 ih =>
    intro conf2 pos h
    rw [scan] at h
    simp only [if_neg h1, if_neg h2, if_neg h3] at h
    exact (ih conf2 pos h).trans (List.suffix_cons arg rest)
  | case6 conf n ns rest h1 =>
    intro conf2 pos h
    rw [scan] at h
    simp [h1] at h
  | case7 conf n ns rest f h1 ih =>
    intro conf2 pos h
    rw [scan] at h
    simp only [h1] at h
    exact ih conf2 pos h
  | case8 conf n ns g h1 =>
    intro conf2 pos h
    rw [scan] at h
    simp [h1] at h
  | case9 conf n ns g h1 v rest2 e h2 =>
    intro conf2 pos h
    rw [scan] at h
    simp [h1, h2] at h
  | case10 conf n ns g h1 v rest2 f h2 ih =>
    intro conf2 pos h
    rw [scan] at h
    simp only [h1, h2] at h
    exact (ih conf2 pos h).trans (List.suffix_cons v rest2)

/-- A token whose data is `'-' :: c :: cs` with `c ≠ '-'` (one leading
hyphen) differs from `-` and `--` and starts with a dash. -/
theorem cluster_token_facts (c : Char) (cs : List Char) (hc : c ≠ '-') :
    String.mk ('-' :: c :: cs) ≠ "-" ∧ String.mk ('-' :: c :: cs) ≠ "--" ∧
      startsDash (String.mk ('-' :: c :: cs)) = true := by
  refine ⟨by simp [String.ext_iff], ?_, by simp [startsDash]⟩
  simp [String.ext_iff]
  intro h
  exact absurd h hc

/-- On a one-hyphen token, `names` yields one short name per non-hyphen
character after the leading hyphen, in order. -/
theorem names_short (c : Char) (cs : List Char) (hc : c ≠ '-') :
    names (String.mk ('-' :: c :: cs)) =
      ((c :: cs).filter (fun d => d ≠ '-')).map (fun d => String.mk ['-', d]) := by
  simp [names, startsDashDash, expandShort, hc]

/-- A two-character string `-c` with `c ≠ '-'` is a short name token: it
differs from `-` and `--`, starts with a dash, and expands to itself. -/
theorem shortName_token (c : Char) (hc : c ≠ '-') :
    String.mk ['-', c] ≠ "-" ∧ String.mk ['-', c] ≠ "--" ∧
      startsDash (String.mk ['-', c]) = true ∧
      names (String.mk ['-', c]) = [String.mk ['-', c]] := by
  refine ⟨by simp [String.ext_iff], ?_, by simp [startsDash], ?_⟩
  · simp [String.ext_iff]
    exact hc
  · simp [names, startsDashDash, expandShort, hc]

/-! ## Claims -/

/-- C6: when the top-level scan meets a token that does not start with a
hyphen, scanning ends successfully and the result pairs the current
configuration with that token and every following token, verbatim and in
original order, as the positional arguments. -/
theorem first_positional_stops_scan {α : Type u} (spec : Spec α) (conf : α)
    (t : String) (rest : List String) (h : startsDash t = false) :
    parseArgs spec (conf, t :: rest) = Except.ok (conf, t :: rest) := by
  have h1 : t ≠ "-" := by
    rintro rfl
    exact absurd h (by decide)
  have h2 : t ≠ "--" := by
    rintro rfl
    exact absurd h (by decide)
  rw [parseArgs, scan]
  simp [h1, h2, h]

/-- Witness for C6 at the token `foo` followed by a flag-like token. -/
theorem first_positional_stops_scan_witness :
    startsDash "foo" = false ∧
      parseArgs specCE ((0, 0), ["foo", "-c"]) =
        Except.ok ((0, 0), ["foo", "-c"]) :=
  ⟨by decide, first_positional_stops_scan specCE (0, 0) "foo" ["-c"] (by decide)⟩

/-- C10: an empty-string argument token at the top-level scan is treated
as a positional argument: it does not start with a hyphen, so scanning
ends successfully with the empty string and all following tokens returned
as positionals. -/
theorem empty_token_positional {α : Type u} (spec : Spec α) (conf : α)
    (rest : List String) :
    parseArgs spec (conf, "" :: rest) = Except.ok (conf, "" :: rest) := by
  rw [parseArgs, scan]
  simp [show ("" : String) ≠ "-" from by decide,
        show ("" : String) ≠ "--" from by decide,
        show startsDash "" = false from by decide]

/-- C7: for every specification, initial configuration and finite
argument sequence, `parseArgs` returns exactly one result: either an
error message (and then no success pair) or a success pair (and then no
error message).  Termination is established by the definition itself,
whose recursion is well founded. -/
theorem parseArgs_total {α : Type u} (spec : Spec α) (conf : α)
    (args : List String) :
    (∃ e, parseArgs spec (conf, args) = Except.error e ∧
       ∀ p, parseArgs spec (conf, args) ≠ Except.ok p) ∨
    (∃ p, parseArgs spec (conf, args) = Except.ok p ∧
       ∀ e, parseArgs spec (conf, args) ≠ Except.error e) := by
  rcases hr : parseArgs spec (conf, args) with e | p
  · exact Or.inl ⟨e, rfl, fun p hp => by cases hp⟩
  · exact Or.inr ⟨p, rfl, fun e he => by cases he⟩

/-- C9: whenever `parseArgs` succeeds, the returned positional list is a
contiguous suffix of the input argument list — never reordered, filtered,
or altered. -/
theorem positionals_are_suffix {α : Type u} (spec : Spec α) (conf : α)
    (args : List String) (conf2 : α) (pos : List String)
    (h : parseArgs spec (conf, args) = Except.ok (conf2, pos)) :
    pos <:+ args :=
  scan_ok_suffix spec conf [] args conf2 pos h

/-- Witness for C9: a flag, an option with its value, and two
positionals. -/
theorem positionals_are_suffix_witness :
    parseArgs specCE ((0, 0), ["-c", "-e", "v", "p1", "p2"]) =
      Except.ok ((1, 1), ["p1", "p2"]) ∧
    ["p1", "p2"] <:+ ["-c", "-e", "v", "p1", "p2"] := by
  have hev : parseArgs specCE ((0, 0), ["-c", "-e", "v", "p1", "p2"]) =
      Except.ok ((1, 1), ["p1", "p2"]) := by
    simp [parseArgs, scan, specCE, names, startsDashDash, startsDash,
          expandShort]
    decide
  exact ⟨hev, positionals_are_suffix specCE (0, 0) _ (1, 1) ["p1", "p2"] hev⟩

/-- Every error a scan can return is one of the four shapes produced by
lines 346, 353, 357 and 359 of the source. -/
theorem scan_error_forms {α : Type u} (spec : Spec α) (conf : α)
    (pending args : List String) :
    ∀ e, scan spec conf pending args = Except.error e →
      e = "- is not a valid flag or option name" ∨
      (∃ n, spec n = none ∧ e = n ++ " is unrecognized") ∨
      (∃ n g, spec n = some (Handler.Option g) ∧
        e = n ++ " requires a value") ∨
      (∃ n g v, spec n = some (Handler.Option g) ∧
        g v = Except.error e) := by
  induction conf, pending, args using scan.induct spec with
  | case1 conf =>
    intro e h
    rw [scan_done] at h
    cases h
  | case2 conf rest =>
    intro e h
    rw [scan_lone_dash] at h
    cases h
    exact Or.inl rfl
  | case3 conf rest h1 =>
    intro e h
    rw [scan_separator] at h
    cases h
  | case4 conf arg rest h1 h2 h3 =>
    intro e h
    rw [scan_positional spec conf arg rest h3] at h
    cases h
  | case5 conf arg rest h1 h2 h3 ih =>
    intro e h
    rw [scan_classify spec conf arg rest h1 h2 (by
      cases hb : startsDash arg with
      | true => rfl
      | false => exact absurd hb h3)] at h
    exact ih e h
  | case6 conf n ns rest h1 =>
    intro e h
    rw [scan_unrecognized spec conf n ns rest h1] at h
    cases h
    exact Or.inr (Or.inl ⟨n, h1, rfl⟩)
  | case7 conf n ns rest f h1 ih =>
    intro e h
    rw [scan_flag spec conf n ns rest f h1] at h
    exact ih e h
  | case8 conf n ns g h1 =>
    intro e h
    rw [scan_option_no_value spec conf n ns g h1] at h
    cases h
    exact Or.inr (Or.inr (Or.inl ⟨n, g, h1, rfl⟩))
  | case9 conf n ns g h1 v rest2 e0 h2 =>
    intro e h
    rw [scan_option_invalid spec conf n ns g v rest2 e0 h1 h2] at h
    cases h
    exact Or.inr (Or.inr (Or.inr ⟨n, g, v, h1, h2⟩))
  | case10 conf n ns g h1 v rest2 f h2 ih =>
    intro e h
    rw [scan_option_valid spec conf n ns g v rest2 f h1 h2] at h
    exact ih e h

/-- C4: every error `parseArgs` returns has one of exactly four shapes,
with exactly this wording: the lone-dash message, `<name> is
unrecognized` for a name absent from the specification, `<name> requires
a value` for an Option with no argument left to consume, or a message
returned verbatim by an Option's Validator.  The scan being a single
deterministic left-to-right pass, the reported error is the first one in
scan order and no partial configuration accompanies it. -/
theorem parseArgs_error_forms {α : Type u} (spec : Spec α) (conf : α)
    (args : List String) (e : String)
    (h : parseArgs spec (conf, args) = Except.error e) :
    e = "- is not a valid flag or option name" ∨
    (∃ n, spec n = none ∧ e = n ++ " is unrecognized") ∨
    (∃ n g, spec n = some (Handler.Option g) ∧
      e = n ++ " requires a value") ∨
    (∃ n g v, spec n = some (Handler.Option g) ∧ g v = Except.error e) :=
  scan_error_forms spec conf [] args e h

/-- Witness for C4 at an unrecognized name. -/
theorem parseArgs_error_forms_witness :
    parseArgs specCE ((0, 0), ["-x"]) =
      Except.error "-x is unrecognized" ∧
    ("-x is unrecognized" = "- is not a valid flag or option name" ∨
     (∃ n, specCE n = none ∧ "-x is unrecognized" = n ++ " is unrecognized") ∨
     (∃ n g, specCE n = some (Handler.Option g) ∧
       "-x is unrecognized" = n ++ " requires a value") ∨
     (∃ n g v, specCE n = some (Handler.Option g) ∧
       g v = Except.error "-x is unrecognized")) := by
  have hev : parseArgs specCE ((0, 0), ["-x"]) =
      Except.error "-x is unrecognized" := by
    simp [parseArgs, scan, specCE, names, startsDashDash, startsDash,
          expandShort]
  exact ⟨hev, parseArgs_error_forms specCE (0, 0) ["-x"] _ hev⟩

/-- C5: the argument token consumed as an Option's value is never
classified, expanded, or interpreted as a flag, option name, separator,
or positional: for an arbitrary value token `v` — its shape plays no
role — the parse result is determined by handing `v` as a literal string
to the Option's Validator `g`, after which scanning resumes on the
following tokens. -/
theorem option_value_opaque {α : Type u} (spec : Spec α) (conf : α)
    (t n v : String) (rest : List String)
    (g : String → Except String (α → α))
    (h1 : t ≠ "-") (h2 : t ≠ "--") (h3 : startsDash t = true)
    (h4 : names t = [n]) (hn : spec n = some (Handler.Option g)) :
    parseArgs spec (conf, t :: v :: rest) =
      match g v with
      | Except.error e => Except.error e
      | Except.ok f => scan spec (f conf) [] rest := by
  rw [parseArgs]
  rw [scan_classify spec conf t (v :: rest) h1 h2 h3, h4]
  rw [scan]
  simp [hn]

/-- Witness for C5 at the separator-shaped value `--`: it is consumed as
the literal value of `-e` and never treated as a separator. -/
theorem option_value_opaque_witness :
    parseArgs specCE ((0, 0), ["-e", "--"]) =
      match (Except.ok (fun p => (p.1, 2)) :
          Except String (Nat × Nat → Nat × Nat)) with
      | Except.error e => Except.error e
      | Except.ok f => scan specCE (f (0, 0)) [] [] :=
  option_value_opaque specCE (0, 0) "-e" "-e" "--" []
    (fun v => Except.ok (fun p => (p.1, v.length)))
    (by decide) (by decide) (by decide) (by decide) rfl

/-- C3: when a short cluster's expanded names begin with two names both
mapped to Option handlers, each Option, in left-to-right cluster order,
independently consumes one following whole argument token as its value:
the first Option takes the token right after the cluster and the second
Option the token after that, after which the remaining expanded names of
the cluster are dispatched against the arguments beyond both values.
The core places no one-Option-per-cluster restriction. -/
theorem cluster_two_options {α : Type u} (spec : Spec α) (conf : α)
    (c1 c2 : Char) (cs : List Char)
    (g1 g2 : String → Except String (α → α))
    (f1 f2 : α → α) (v1 v2 : String) (rest : List String)
    (hc1 : c1 ≠ '-') (hc2 : c2 ≠ '-')
    (h1 : spec (String.mk ['-', c1]) = some (Handler.Option g1))
    (h2 : spec (String.mk ['-', c2]) = some (Handler.Option g2))
    (hv1 : g1 v1 = Except.ok f1) (hv2 : g2 v2 = Except.ok f2) :
    parseArgs spec
        (conf, String.mk ('-' :: c1 :: c2 :: cs) :: v1 :: v2 :: rest) =
      scan spec (f2 (f1 conf))
        ((cs.filter (fun d => d ≠ '-')).map (fun d => String.mk ['-', d]))
        rest := by
  have hfacts := cluster_token_facts c1 (c2 :: cs) hc1
  have hnames : names (String.mk ('-' :: c1 :: c2 :: cs)) =
      String.mk ['-', c1] :: String.mk ['-', c2] ::
        (cs.filter (fun d => d ≠ '-')).map (fun d => String.mk ['-', d]) := by
    rw [names_short c1 (c2 :: cs) hc1]
    simp [hc1, hc2]
  rw [parseArgs,
      scan_classify spec conf _ _ hfacts.1 hfacts.2.1 hfacts.2.2, hnames,
      scan_option_valid spec conf _ _ g1 v1 _ f1 h1 hv1,
      scan_option_valid spec (f1 conf) _ _ g2 v2 _ f2 h2 hv2]

/-- Witness for C3: in the cluster `-eec`, the first `-e` consumes `ab`,
the second `-e` consumes `abcd`, and the flag `-c` is then dispatched
against the arguments beyond both values. -/
theorem cluster_two_options_witness :
    parseArgs specCE ((0, 0), ["-eec", "ab", "abcd"]) =
      scan specCE (0, 4) [String.mk ['-', 'c']] [] ∧
    scan specCE (0, 4) [String.mk ['-', 'c']] [] =
      Except.ok ((1, 4), []) := by
  constructor
  · exact cluster_two_options specCE (0, 0) 'e' 'e' ['c']
      (fun v => Except.ok (fun p => (p.1, v.length)))
      (fun v => Except.ok (fun p => (p.1, v.length)))
      (fun p => (p.1, 2)) (fun p => (p.1, 4)) "ab" "abcd" []
      (by decide) (by decide) rfl rfl rfl rfl
  · simp [scan, specCE]

/-- C8: a token with exactly one leading hyphen whose tail contains
further hyphens (e.g. `-a-b` or `-x-`) has those interior and trailing
hyphens silently dropped by the name expander — one hyphen-prefixed
single-character name per non-hyphen character, in order — and
`parseArgs` proceeds exactly as if the extra hyphens had not been
present. -/
theorem strip_hyphens {α : Type u} (spec : Spec α) (conf : α) (c : Char)
    (cs : List Char) (rest : List String) (hc : c ≠ '-') :
    names (String.mk ('-' :: c :: cs)) =
      ((c :: cs).filter (fun d => d ≠ '-')).map (fun d => String.mk ['-', d]) ∧
    parseArgs spec (conf, String.mk ('-' :: c :: cs) :: rest) =
      parseArgs spec
        (conf, String.mk ('-' :: (c :: cs).filter (fun d => d ≠ '-')) :: rest) := by
  refine ⟨names_short c cs hc, ?_⟩
  have hf : (c :: cs).filter (fun d => d ≠ '-') =
      c :: cs.filter (fun d => d ≠ '-') := by
    simp [hc]
  have ht1 := cluster_token_facts c cs hc
  have ht2 := cluster_token_facts c (cs.filter (fun d => d ≠ '-')) hc
  rw [parseArgs, parseArgs, hf,
      scan_classify spec conf _ _ ht1.1 ht1.2.1 ht1.2.2,
      scan_classify spec conf _ _ ht2.1 ht2.2.1 ht2.2.2,
      names_short c cs hc, names_short c (cs.filter (fun d => d ≠ '-')) hc]
  simp [hc, List.filter_filter]

/-- Witness for C8 at `-c-e`: the interior hyphen is dropped and the
token parses exactly like `-ce`. -/
theorem strip_hyphens_witness :
    names "-c-e" = ["-c", "-e"] ∧
      parseArgs specCE ((0, 0), ["-c-e", "xx"]) =
        parseArgs specCE ((0, 0), ["-ce", "xx"]) := by
  have h := strip_hyphens specCE (0, 0) 'c' ['-', 'e'] ["xx"] (by decide)
  simpa using h

/-- Dispatching a pending list of short names is the same as supplying
those names as separate argument tokens, provided every name before the
last one is absent from the specification or bound to a Flag (so that no
Option's value consumption can differ between the two forms). -/
theorem scan_pending_to_tokens {α : Type u} (spec : Spec α) :
    ∀ (ns : List String) (conf : α) (rest : List String),
      (∀ m ∈ ns, ∃ c : Char, c ≠ '-' ∧ m = String.mk ['-', c]) →
      (∀ m ∈ ns.dropLast,
        spec m = none ∨ ∃ f, spec m = some (Handler.Flag f)) →
      scan spec conf ns rest = scan spec conf [] (ns ++ rest) := by
  intro ns
  induction ns with
  | nil =>
    intro conf rest _ _
    simp
  | cons n ns' ih =>
    intro conf rest hvalid hflags
    obtain ⟨c, hc, rfl⟩ := hvalid _ (List.mem_cons_self _ _)
    have tok := shortName_token c hc
    cases ns' with
    | nil =>
      rw [List.singleton_append,
          scan_classify spec conf _ rest tok.1 tok.2.1 tok.2.2.1,
          tok.2.2.2]
    | cons m ns'' =>
      have hvalid' : ∀ m' ∈ m :: ns'', ∃ c : Char, c ≠ '-' ∧
          m' = String.mk ['-', c] :=
        fun m' hm' => hvalid m' (List.mem_cons_of_mem _ hm')
      have hflags' : ∀ m' ∈ (m :: ns'').dropLast,
          spec m' = none ∨ ∃ f, spec m' = some (Handler.Flag f) := by
        intro m' hm'
        refine hflags m' ?_
        rw [List.dropLast_cons₂]
        exact List.mem_cons_of_mem _ hm'
      have hn : spec (String.mk ['-', c]) = none ∨
          ∃ f, spec (String.mk ['-', c]) = some (Handler.Flag f) := by
        refine hflags _ ?_
        rw [List.dropLast_cons₂]
        exact List.mem_cons_self _ _
      have hcons : (String.mk ['-', c] :: m :: ns'') ++ rest =
          String.mk ['-', c] :: ((m :: ns'') ++ rest) := rfl
      rcases hn with hnone | ⟨f, hf⟩
      · rw [scan_unrecognized spec conf _ _ rest hnone, hcons,
            scan_classify spec conf _ _ tok.1 tok.2.1 tok.2.2.1,
            tok.2.2.2,
            scan_unrecognized spec conf _ _ _ hnone]
      · rw [scan_flag spec conf _ _ rest f hf,
            ih (f conf) rest hvalid' hflags', hcons,
            scan_classify spec conf _ _ tok.1 tok.2.1 tok.2.2.1,
            tok.2.2.2,
            scan_flag spec conf _ _ _ f hf]

/-- C1 (amended): for a one-hyphen cluster token in which every expanded
name except possibly the last is absent from the specification or mapped
to a Flag, `parseArgs` on the cluster followed by the remaining
arguments equals `parseArgs` on the expanded single short names supplied
as separate tokens followed by the same remaining arguments, including
value consumption for an Option in final position. -/
theorem cluster_expansion_amended {α : Type u} (spec : Spec α) (conf : α)
    (c : Char) (cs : List Char) (rest : List String) (hc : c ≠ '-')
    (hflags : ∀ m ∈ (names (String.mk ('-' :: c :: cs))).dropLast,
        spec m = none ∨ ∃ f, spec m = some (Handler.Flag f)) :
    parseArgs spec (conf, String.mk ('-' :: c :: cs) :: rest) =
      parseArgs spec (conf, names (String.mk ('-' :: c :: cs)) ++ rest) := by
  have ht := cluster_token_facts c cs hc
  rw [parseArgs, parseArgs, scan_classify spec conf _ _ ht.1 ht.2.1 ht.2.2]
  refine scan_pending_to_tokens spec _ conf rest ?_ hflags
  rw [names_short c cs hc]
  intro m hm
  rw [List.mem_map] at hm
  obtain ⟨d, hd, rfl⟩ := hm
  rw [List.mem_filter] at hd
  exact ⟨d, by simpa using hd.2, rfl⟩

/-- Counterexample to C1 as stated: in the cluster `-ec` the Option `-e`
is followed by a further name, so it looks for its value after the whole
cluster and finds none, while the separate tokens `-e`, `-c` let `-e`
consume `-c` as its value.  (This matches the repository's own tests:
`-ec` yields `-e requires a value`.) -/
theorem cluster_expansion_cex :
    parseArgs specCE ((0, 0), ["-ec"]) =
      Except.error "-e requires a value" ∧
    parseArgs specCE ((0, 0), ["-e", "-c"]) = Except.ok ((0, 2), []) ∧
    parseArgs specCE ((0, 0), ["-ec"]) ≠
      parseArgs specCE ((0, 0), ["-e", "-c"]) := by
  refine ⟨?_, ?_, ?_⟩
  · simp [parseArgs, scan, specCE, names, startsDashDash, startsDash,
          expandShort]
  · simp [parseArgs, scan, specCE, names, startsDashDash, startsDash,
          expandShort]
    decide
  · simp [parseArgs, scan, specCE, names, startsDashDash, startsDash,
          expandShort]

/-- Witness for the amended C1: `-ce` (Flag then Option) parses exactly
like the separate tokens `-c`, `-e`. -/
theorem cluster_expansion_amended_witness :
    parseArgs specCE ((0, 0), ["-ce", "abc"]) =
      parseArgs specCE ((0, 0), ["-c", "-e", "abc"]) := by
  have h := cluster_expansion_amended specCE (0, 0) 'c' ['e'] ["abc"]
      (by decide) ?_
  · simpa [names, startsDashDash, expandShort] using h
  · intro m hm
    simp [names, startsDashDash, expandShort] at hm
    subst hm
    exact Or.inr ⟨fun p => (p.1 + 1, p.2), rfl⟩

/-- When the scan consumes its whole argument list as names and option
values, appending a separator and further arguments leaves the
configuration unchanged and returns the appended arguments untouched. -/
theorem scan_consumed_append {α : Type u} (spec : Spec α) (ys : List String) :
    ∀ (conf : α) (pending args : List String),
      consumesAll spec conf pending args = true →
      ∃ conf1, scan spec conf pending args = Except.ok (conf1, []) ∧
        scan spec conf pending (args ++ "--" :: ys) = Except.ok (conf1, ys) := by
  intro conf pending args
  induction conf, pending, args using consumesAll.induct spec with
  | case1 conf =>
    intro _
    exact ⟨conf, scan_done spec conf, scan_separator spec conf ys⟩
  | case2 conf rest =>
    intro h
    rw [consumesAll] at h
    simp at h
  | case3 conf rest h1 =>
    intro h
    rw [consumesAll] at h
    simp at h
  | case4 conf arg rest h1 h2 h3 =>
    intro h
    rw [consumesAll] at h
    simp [h1, h2, h3] at h
  | case5 conf arg rest h1 h2 h3 ih =>
    intro h
    rw [consumesAll] at h
    simp only [if_neg h1, if_neg h2, if_neg h3] at h
    obtain ⟨conf1, hdone, happ⟩ := ih h
    have hd : startsDash arg = true := by
      cases hb : startsDash arg with
      | true => rfl
      | false => exact absurd hb h3
    exact ⟨conf1, by rw [scan_classify spec conf arg rest h1 h2 hd]; exact hdone,
      by rw [List.cons_append, scan_classify spec conf arg _ h1 h2 hd]; exact happ⟩
  | case6 conf n ns rest h1 =>
    intro h
    rw [consumesAll] at h
    simp [h1] at h
  | case7 conf n ns rest f h1 ih =>
    intro h
    rw [consumesAll] at h
    simp only [h1] at h
    obtain ⟨conf1, hdone, happ⟩ := ih h
    exact ⟨conf1, by rw [scan_flag spec conf n ns rest f h1]; exact hdone,
      by rw [scan_flag spec conf n ns _ f h1]; exact happ⟩
  | case8 conf n ns g h1 =>
    intro h
    rw [consumesAll] at h
    simp [h1] at h
  | case9 conf n ns g h1 v rest2 e h2 =>
    intro h
    rw [consumesAll] at h
    simp [h1, h2] at h
  | case10 conf n ns g h1 v rest2 f h2 ih =>
    intro h
    rw [consumesAll] at h
    simp only [h1, h2] at h
    obtain ⟨conf1, hdone, happ⟩ := ih h
    exact ⟨conf1,
      by rw [scan_option_valid spec conf n ns g v rest2 f h1 h2]; exact hdone,
      by rw [List.cons_append,
             scan_option_valid spec conf n ns g v _ f h1 h2]; exact happ⟩

/-- C2 (amended): if the scan consumes the whole of `xs` as flag/option
names and option values (no error, no separator, no positional inside
`xs`), then `parseArgs` on `xs ++ ["--"] ++ ys` applies exactly the
handlers of `xs` and returns `ys` untouched as the positional arguments,
regardless of the contents of `ys`. -/
theorem separator_amended {α : Type u} (spec : Spec α) (conf0 : α)
    (xs ys : List String) (h : consumesAll spec conf0 [] xs = true) :
    ∃ conf1, parseArgs spec (conf0, xs) = Except.ok (conf1, []) ∧
      parseArgs spec (conf0, xs ++ "--" :: ys) = Except.ok (conf1, ys) :=
  scan_consumed_append spec ys conf0 [] xs h

/-- Counterexample to C2 as stated: with `xs = ["x"]` and `ys = ["y"]`
the first token of `xs` is positional, so scanning stops at `x` and the
positional output is `["x", "--", "y"]`, not `ys`. -/
theorem separator_cex :
    parseArgs specCE ((0, 0), ["x"] ++ ["--"] ++ ["y"]) =
      Except.ok ((0, 0), ["x", "--", "y"]) ∧
    parseArgs specCE ((0, 0), ["x"] ++ ["--"] ++ ["y"]) ≠
      Except.ok ((0, 0), ["y"]) := by
  refine ⟨?_, ?_⟩ <;>
    simp [parseArgs, scan, specCE, names, startsDashDash, startsDash,
          expandShort]

/-- Witness for the amended C2: `xs = ["-c", "-e", "vv"]` is consumed in
full, and `ys = ["-", "--", "-c"]` comes back untouched even though it
contains a lone dash, a separator and a recognized name. -/
theorem separator_amended_witness :
    consumesAll specCE (0, 0) [] ["-c", "-e", "vv"] = true ∧
    ∃ conf1, parseArgs specCE ((0, 0), ["-c", "-e", "vv"]) =
        Except.ok (conf1, []) ∧
      parseArgs specCE ((0, 0), ["-c", "-e", "vv"] ++ "--" :: ["-", "--", "-c"]) =
        Except.ok (conf1, ["-", "--", "-c"]) := by
  have hca : consumesAll specCE (0, 0) [] ["-c", "-e", "vv"] = true := by
    simp [consumesAll, specCE, names, startsDashDash, startsDash, expandShort]
  exact ⟨hca, separator_amended specCE (0, 0) ["-c", "-e", "vv"]
    ["-", "--", "-c"] hca⟩

end SanctuaryArgv
